import Mathlib

/-!
Shallow embedding of `src/Website/src/App.js` (a single-file React Pomodoro
timer component) and proofs of the specification claims about it.

Modelling conventions:
* JS numbers that hold (fractional) seconds or millisecond timestamps are
  modelled as `ℚ`; `Math.ceil` is `Int.ceil`, `Math.max` is `max`.
* `Math.exp` is transcendental and has no exact rational embedding; the curve
  sampler is parametrised by the exponential function `mexp : ℚ → ℚ`, and
  theorems about it assume only what holds of the real exponential
  (strict positivity).
* React `useState`/`useRef` cells become fields of an explicit `AppState`
  record; each event handler / effect becomes a state-transition function.
* `requestAnimationFrame` scheduling is modelled by the boolean result of
  `tick` (whether the callback rescheduled itself) together with the
  `rafActive` field, and by `runLoop`, which feeds a list of frame
  timestamps to `tick` for as long as the callback keeps rescheduling.
-/

namespace Pomodoro

/-- A task list entry: `{ id, text, done }` in `App.js`. Ids are produced by
`Date.now()` (a natural-number millisecond timestamp) or are the literal
seeds 1 and 2. -/
structure Task where
  id : ℕ
  text : String
  done : Bool
deriving DecidableEq

/-- A default task, used only as the out-of-range fallback of `List.getD`
in theorem statements. -/
def dfltTask : Task := ⟨0, "", false⟩

/-- JS `String.prototype.trim()`: strip leading and trailing whitespace,
modelled structurally on the character list of the string. -/
def jsTrim (s : String) : String :=
  ⟨((s.data.dropWhile Char.isWhitespace).reverse.dropWhile Char.isWhitespace).reverse⟩

/-- The two seeded tasks of the `useState` initialiser (`App.js` lines
80-83). -/
def initialTasks : List Task :=
  [⟨1, "Read article", false⟩, ⟨2, "Write report", false⟩]

/-- The whole component state: every `useState` and `useRef` cell of
`PomodoroTimer` that the claims touch. `breakMinutes` starts as `null`
(`none`); `startTimestamp` models `startTimestampRef`, `totalSeconds` models
`totalSecondsRef`, `rafActive` models whether a `requestAnimationFrame`
callback is currently scheduled (`rafRef`). -/
structure AppState where
  selectedMinutes : ℚ
  breakMinutes : Option ℚ
  running : Bool
  secondsLeft : ℚ
  elapsed : ℚ
  tasks : List Task
  newTask : String
  sessionsCompleted : ℕ
  celebrate : Bool
  rafActive : Bool
  startTimestamp : ℚ
  totalSeconds : ℚ
  curve : List (ℚ × ℚ)

/-- Peak-count policy of `sampleProductivityCurve` (`App.js` lines 49-52):
`let peaks = 1; if (minutes >= 90) peaks = 3; else if (minutes >= 60)
peaks = 2; else if (minutes >= 30) peaks = 1;` (the last branch, like the
fall-through, leaves the initial value 1). -/
def peaksFor (minutes : ℚ) : ℕ :=
  if 90 ≤ minutes then 3
  else if 60 ≤ minutes then 2
  else if 30 ≤ minutes then 1
  else 1

/-- JS `Math.max(...ys)` over a spread array, as used on `App.js` line 70.
In the program the list is always nonempty (`samples+1` points); the `[]`
case (JS would give `-Infinity`) is unreachable and maps to 0. -/
def jsMax : List ℚ → ℚ
  | [] => 0
  | a :: rest => rest.foldl max a

/-- The inner gaussian summation loop of `sampleProductivityCurve`
(`App.js` lines 58-63): starting from `y = 0`, for `p = 0 .. peaks-1` add
`Math.exp(-((t - center)/width)^2)` with `center = ((p+1)/(peaks+1)) * tMax`
and `width = tMax/(peaks * 3.5)`. -/
def gaussTerm (mexp : ℚ → ℚ) (peaks : ℕ) (tMax t : ℚ) (p : ℕ) : ℚ :=
  let center := (((p : ℚ) + 1) / ((peaks : ℚ) + 1)) * tMax
  let width := tMax / ((peaks : ℚ) * (7 / 2))
  mexp (-(((t - center) / width) ^ 2))

/-- The summation over the peak indices `p = 0 .. peaks-1` of the loop on
`App.js` lines 59-63. -/
def gaussSum (mexp : ℚ → ℚ) (peaks : ℕ) (tMax t : ℚ) : ℚ :=
  (List.range peaks).foldl (fun y p => y + gaussTerm mexp peaks tMax t p) 0

/-- One sample point of the curve (`App.js` lines 55-67): at index `i`,
`t = (i/samples) * tMax`, the summed gaussians are damped by
`1 - 0.15 * (t/tMax)`, and the stored point is `{ x: i/samples, y }`. -/
def samplePoint (mexp : ℚ → ℚ) (minutes : ℚ) (samples : ℕ) (i : ℕ) : ℚ × ℚ :=
  let tMax := minutes * 60
  let t := ((i : ℚ) / (samples : ℚ)) * tMax
  let y := gaussSum mexp (peaksFor minutes) tMax t * (1 - (3 / 20) * (t / tMax))
  ((i : ℚ) / (samples : ℚ), y)

/-- The function `sampleProductivityCurve(minutes, samples = 200)` (`App.js` lines
45-72): build `samples+1` points, then renormalise so the maximum sampled
`y` maps to 1 (`p.y / maxY`). -/
def sampleProductivityCurve (mexp : ℚ → ℚ) (minutes : ℚ) (samples : ℕ) :
    List (ℚ × ℚ) :=
  let points := (List.range (samples + 1)).map (samplePoint mexp minutes samples)
  let maxY := jsMax (points.map Prod.snd)
  points.map (fun p => (p.1, p.2 / maxY))

/-- The expression `Math.max(0, (now - startTimestampRef.current) / 1000)` — the elapsed
seconds computed by `tick` (`App.js` line 113). -/
def elapsedAt (start now : ℚ) : ℚ :=
  max 0 ((now - start) / 1000)

/-- The expression `Math.max(0, Math.ceil(totalSecondsRef.current - elapsedSec))` — the
remaining-seconds display computed by `tick` (`App.js` line 115). -/
def secondsLeftOf (total elapsedSec : ℚ) : ℚ :=
  max 0 ((⌈total - elapsedSec⌉ : ℤ) : ℚ)

/-- The per-frame callback `tick(now)` (`App.js` lines 112-127). Returns the
updated state and whether the callback rescheduled itself
(`requestAnimationFrame(tick)`); on completion it finalises the session and
returns without rescheduling. -/
def tick (now : ℚ) (s : AppState) : AppState × Bool :=
  let elapsedSec := elapsedAt s.startTimestamp now
  let left := secondsLeftOf s.totalSeconds elapsedSec
  let s1 := { s with elapsed := elapsedSec, secondsLeft := left }
  if s.totalSeconds ≤ elapsedSec then
    ({ s1 with running := false
             , elapsed := s.totalSeconds
             , secondsLeft := 0
             , sessionsCompleted := s.sessionsCompleted + 1
             , celebrate := true
             , rafActive := false }, false)
  else
    ({ s1 with rafActive := true }, true)

/-- The animation-frame loop: run `tick` on successive frame timestamps for
as long as the callback keeps rescheduling itself. -/
def runLoop : List ℚ → AppState → AppState
  | [], s => s
  | now :: rest, s =>
    let r := tick now s
    if r.2 then runLoop rest r.1 else r.1

/-- The anchor `performance.now() - elapsed * 1000` set by
the `[running]` effect (`App.js` line 110). -/
def resumeAnchor (now elapsed : ℚ) : ℚ :=
  now - elapsed * 1000

/-- The `[running]` effect body (`App.js` lines 106-132): when `running` it
re-derives the start anchor from the accumulated `elapsed` and schedules the
first frame; when not running it does nothing. -/
def resumeEffect (now : ℚ) (s : AppState) : AppState :=
  if s.running then
    { s with startTimestamp := resumeAnchor now s.elapsed, rafActive := true }
  else s

/-- The `startStop` handler (`App.js` lines 134-142): running → pause
(stop the loop), not running → start. -/
def startStop (s : AppState) : AppState :=
  if s.running then { s with running := false, rafActive := false }
  else { s with running := true }

/-- The `[selectedMinutes]` effect together with the duration-button click
(`App.js` lines 95-104 and 280): select duration `d`, then reset the timer,
regenerate the curve, clear the break choice, stop running and cancel the
frame loop. -/
def selectMinutes (mexp : ℚ → ℚ) (d : ℚ) (s : AppState) : AppState :=
  { s with selectedMinutes := d
         , secondsLeft := d * 60
         , elapsed := 0
         , totalSeconds := d * 60
         , curve := sampleProductivityCurve mexp d 200
         , breakMinutes := none
         , running := false
         , rafActive := false }

/-- The pure task-list part of `addTask` (`App.js` lines 151-155): reject
text that is empty after trimming, otherwise append
`{ id: Date.now(), text: newTask.trim(), done: false }`. `now` is the
`Date.now()` value observed by the call. -/
def addTaskList (now : ℕ) (txt : String) (ts : List Task) : List Task :=
  if jsTrim txt = "" then ts
  else ts ++ [⟨now, jsTrim txt, false⟩]

/-- The `addTask` handler on the component state (`App.js` lines 151-155):
on success it also clears the `newTask` input field. -/
def addTask (now : ℕ) (s : AppState) : AppState :=
  if jsTrim s.newTask = "" then s
  else { s with tasks := addTaskList now s.newTask s.tasks, newTask := "" }

/-- The pure task-list part of `toggleTask(id)` (`App.js` lines 157-159):
`t.map(task => task.id === id ? { ...task, done: !task.done } : task)`. -/
def toggleTaskList (id : ℕ) (ts : List Task) : List Task :=
  ts.map (fun task => if task.id = id then { task with done := !task.done } else task)

/-- The `toggleTask` handler on the component state. -/
def toggleTask (id : ℕ) (s : AppState) : AppState :=
  { s with tasks := toggleTaskList id s.tasks }

/-- A user-level task operation: the two mutators the UI exposes. An `add`
carries the `Date.now()` timestamp observed by the handler and the raw
input text. -/
inductive TaskOp where
  | add (now : ℕ) (txt : String)
  | toggle (id : ℕ)
deriving DecidableEq

/-- Apply one task operation to a task list. -/
def applyOp (op : TaskOp) (ts : List Task) : List Task :=
  match op with
  | .add now txt => addTaskList now txt ts
  | .toggle id => toggleTaskList id ts

/-- Apply a sequence of task operations in order. -/
def applyOps (ops : List TaskOp) (ts : List Task) : List Task :=
  ops.foldl (fun acc op => applyOp op acc) ts

/-- Freshness of one operation against the current list: an `add` must carry
a timestamp that is not already used as an id. -/
def opFresh (op : TaskOp) (ts : List Task) : Bool :=
  match op with
  | .add now _ => !(ts.map Task.id).contains now
  | .toggle _ => true

/-- Freshness of a whole operation sequence: each `add` timestamp is fresh
for the list as it stands when that operation runs. -/
def freshOps : List TaskOp → List Task → Bool
  | [], _ => true
  | op :: rest, ts => opFresh op ts && freshOps rest (applyOp op ts)

/-- The initial component state: every `useState` initialiser of
`PomodoroTimer` (`App.js` lines 75-93), with `selectedMinutes = 30`.
`startTimestampRef` starts as `null`, modelled as 0. -/
def initState (mexp : ℚ → ℚ) : AppState :=
  { selectedMinutes := 30
  , breakMinutes := none
  , running := false
  , secondsLeft := 30 * 60
  , elapsed := 0
  , tasks := initialTasks
  , newTask := ""
  , sessionsCompleted := 0
  , celebrate := false
  , rafActive := false
  , startTimestamp := 0
  , totalSeconds := 30 * 60
  , curve := sampleProductivityCurve mexp 30 200 }

/-- A stand-in for `Math.exp` used by concrete witnesses: any strictly
positive function is admissible for the theorems below. -/
def oneExp : ℚ → ℚ := fun _ => 1

/-- Concrete whitespace-only input text used in witnesses. -/
def blankText : String := "   "

/-- Concrete non-blank input text used in witnesses. -/
def reportText : String := "Write report"

/-- Concrete task text used in witnesses. -/
def textA : String := "a"

/-- Concrete task text used in witnesses. -/
def textB : String := "b"

/-- A concrete running state used by the C1 witness: a 30-minute session
(1800 total seconds) anchored at timestamp 0. -/
def runningState : AppState := { initState oneExp with running := true, totalSeconds := 1800 }

/-- A concrete running state with 2 seconds accumulated, used by the C3
witness. -/
def runningAt2 : AppState := { initState oneExp with running := true, elapsed := 2 }

/-- C10: on first render, before any user input, the task list contains
exactly two tasks, `(id=1, "Read article", done=false)` followed by
`(id=2, "Write report", done=false)`. -/
theorem initState_seeded_tasks (mexp : ℚ → ℚ) :
    (initState mexp).tasks.length = 2 ∧
    (initState mexp).tasks.getD 0 dfltTask = ⟨1, "Read article", false⟩ ∧
    (initState mexp).tasks.getD 1 dfltTask = ⟨2, "Write report", false⟩ ∧
    ((initState mexp).tasks.getD 0 dfltTask).done = false ∧
    ((initState mexp).tasks.getD 1 dfltTask).done = false :=
  ⟨rfl, rfl, rfl, rfl, rfl⟩

/-- C4: changing the selected duration to `d` (the `[selectedMinutes]`
effect) stops the frame loop and the running state, resets elapsed to 0,
sets the remaining seconds and the total to the new `d * 60`, regenerates
the productivity curve from `d`, and clears the break selection. -/
theorem selectMinutes_resets (mexp : ℚ → ℚ) (d : ℚ) (s : AppState) :
    (selectMinutes mexp d s).running = false ∧
    (selectMinutes mexp d s).rafActive = false ∧
    (selectMinutes mexp d s).elapsed = 0 ∧
    (selectMinutes mexp d s).secondsLeft = d * 60 ∧
    (selectMinutes mexp d s).totalSeconds = d * 60 ∧
    (selectMinutes mexp d s).curve = sampleProductivityCurve mexp d 200 ∧
    (selectMinutes mexp d s).breakMinutes = none :=
  ⟨rfl, rfl, rfl, rfl, rfl, rfl, rfl⟩

/-- C6: the number of gaussian peaks used by the curve sampler is exactly 1
for durations below 60 minutes, exactly 2 for durations in `[60, 90)`, and
exactly 3 for durations of at least 90 minutes. -/
theorem peaksFor_policy (D : ℚ) :
    (D < 60 → peaksFor D = 1) ∧
    (60 ≤ D → D < 90 → peaksFor D = 2) ∧
    (90 ≤ D → peaksFor D = 3) := by
  refine ⟨fun h => ?_, fun h1 h2 => ?_, fun h => ?_⟩ <;>
    simp only [peaksFor] <;>
    split_ifs <;> first | rfl | linarith

/-- Witness for C6: the policy evaluated at the concrete durations 45, 60
and 120 minutes. -/
theorem peaksFor_policy_witness :
    ((45 : ℚ) < 60 ∧ peaksFor 45 = 1) ∧
    ((60 : ℚ) ≤ 60 ∧ (60 : ℚ) < 90 ∧ peaksFor 60 = 2) ∧
    ((90 : ℚ) ≤ 120 ∧ peaksFor 120 = 3) :=
  ⟨⟨by decide, (peaksFor_policy 45).1 (by decide)⟩,
   ⟨by decide, by decide, (peaksFor_policy 60).2.1 (by decide) (by decide)⟩,
   ⟨by decide, (peaksFor_policy 120).2.2 (by decide)⟩⟩

/-- C7: adding with input text that is empty after trimming leaves the
whole state (hence the task list) unchanged, with no error; adding text
that is non-empty after trimming appends exactly one task with
`done = false` at the end, preserving all existing tasks and their order. -/
theorem addTask_spec (now : ℕ) (s : AppState) :
    (jsTrim s.newTask = "" → addTask now s = s) ∧
    (jsTrim s.newTask ≠ "" →
      (addTask now s).tasks = s.tasks ++ [⟨now, jsTrim s.newTask, false⟩]) := by
  constructor <;> intro h <;> simp [addTask, addTaskList, h]

/-- Witness for C7: a blank input leaves the initial state unchanged; the
input `"Write report"` appends one undone task at the end. -/
theorem addTask_spec_witness :
    (jsTrim blankText = "" ∧
      addTask 99 { initState oneExp with newTask := blankText } =
        { initState oneExp with newTask := blankText }) ∧
    (jsTrim reportText ≠ "" ∧
      (addTask 99 { initState oneExp with newTask := reportText }).tasks =
        initialTasks ++ [⟨99, jsTrim reportText, false⟩]) :=
  ⟨⟨by decide, (addTask_spec 99 _).1 (by decide)⟩,
   ⟨by decide, (addTask_spec 99 _).2 (by decide)⟩⟩

/-- C2: the remaining-seconds value is `max 0 ⌈total - elapsed⌉`: it is
never negative, never exceeds the true remaining time rounded up (for
`elapsed ≤ total` it equals the ceiling exactly), it is 0 precisely when
`elapsed ≥ total`, and the state produced by any `tick` satisfies
`secondsLeft = secondsLeftOf totalSeconds elapsed`. -/
theorem secondsLeft_spec (T E now : ℚ) (s : AppState) :
    secondsLeftOf T E = max 0 ((⌈T - E⌉ : ℤ) : ℚ) ∧
    0 ≤ secondsLeftOf T E ∧
    (E ≤ T → secondsLeftOf T E = ((⌈T - E⌉ : ℤ) : ℚ)) ∧
    (secondsLeftOf T E = 0 ↔ T ≤ E) ∧
    (tick now s).1.secondsLeft =
      secondsLeftOf (tick now s).1.totalSeconds (tick now s).1.elapsed := by
  refine ⟨rfl, le_max_left _ _, fun h => ?_, ⟨fun h => ?_, fun h => ?_⟩, ?_⟩
  · have h1 : (0 : ℚ) ≤ ((⌈T - E⌉ : ℤ) : ℚ) := by
      have : (0 : ℤ) ≤ ⌈T - E⌉ := Int.ceil_nonneg (by linarith)
      exact_mod_cast this
    simpa [secondsLeftOf] using max_eq_right h1
  · by_contra hc
    push_neg at hc
    have h2 : (0 : ℤ) < ⌈T - E⌉ := by
      have : (0 : ℚ) < T - E := by linarith
      exact Int.ceil_pos.mpr this
    have h3 : (0 : ℚ) < ((⌈T - E⌉ : ℤ) : ℚ) := by exact_mod_cast h2
    have h4 : secondsLeftOf T E = ((⌈T - E⌉ : ℤ) : ℚ) := max_eq_right h3.le
    rw [h] at h4
    linarith
  · have h2 : ⌈T - E⌉ ≤ (0 : ℤ) := Int.ceil_le.mpr (by simpa using sub_nonpos.mpr h)
    have h3 : ((⌈T - E⌉ : ℤ) : ℚ) ≤ 0 := by exact_mod_cast h2
    simpa [secondsLeftOf] using max_eq_left h3
  · simp only [tick]
    split
    · simp [secondsLeftOf]
    · rfl

/-- Witness for C2: with total 5 seconds and elapsed 2 seconds the display
equals the exact ceiling of the remaining time and is nonnegative. -/
theorem secondsLeft_spec_witness :
    ((2 : ℚ) ≤ 5) ∧
    secondsLeftOf 5 2 = ((⌈(5 : ℚ) - 2⌉ : ℤ) : ℚ) ∧
    0 ≤ secondsLeftOf 5 2 :=
  ⟨by decide, (secondsLeft_spec 5 2 0 (initState oneExp)).2.2.1 (by decide),
   (secondsLeft_spec 5 2 0 (initState oneExp)).2.1⟩

/-- Toggling never changes the length of the task list. -/
theorem toggleTaskList_length (id : ℕ) (ts : List Task) :
    (toggleTaskList id ts).length = ts.length := by
  simp [toggleTaskList]

/-- Pointwise effect of `toggleTaskList` at an in-range index. -/
theorem toggleTaskList_getD (id : ℕ) (ts : List Task) :
    ∀ i, i < ts.length →
      (toggleTaskList id ts).getD i dfltTask =
        (if (ts.getD i dfltTask).id = id
         then { ts.getD i dfltTask with done := !(ts.getD i dfltTask).done }
         else ts.getD i dfltTask) := by
  induction ts with
  | nil => intro i hi; simp at hi
  | cons t rest ih =>
    intro i hi
    cases i with
    | zero => simp [toggleTaskList]
    | succ j =>
      have hj : j < rest.length := by simpa using hi
      simpa [toggleTaskList] using ih j hj

/-- C8: toggling by `id` preserves the list length and order; at every
position the task keeps its `id` and `text`; a task whose id matches has
exactly its `done` flag flipped, and a task whose id does not match is
completely unchanged. -/
theorem toggleTask_frame (id : ℕ) (ts : List Task) :
    (toggleTaskList id ts).length = ts.length ∧
    ∀ i, i < ts.length →
      ((toggleTaskList id ts).getD i dfltTask).id = (ts.getD i dfltTask).id ∧
      ((toggleTaskList id ts).getD i dfltTask).text = (ts.getD i dfltTask).text ∧
      ((ts.getD i dfltTask).id = id →
        ((toggleTaskList id ts).getD i dfltTask).done = !(ts.getD i dfltTask).done) ∧
      ((ts.getD i dfltTask).id ≠ id →
        (toggleTaskList id ts).getD i dfltTask = ts.getD i dfltTask) := by
  refine ⟨toggleTaskList_length id ts, fun i hi => ?_⟩
  rw [toggleTaskList_getD id ts i hi]
  by_cases hid : (ts.getD i dfltTask).id = id
  · rw [if_pos hid]
    exact ⟨rfl, rfl, fun _ => rfl, fun hne => absurd hid hne⟩
  · rw [if_neg hid]
    exact ⟨rfl, rfl, fun hc => absurd hc hid, fun _ => rfl⟩

/-- Witness for C8: toggling id 1 in the seeded list flips exactly the
first task's done flag and leaves the second task untouched. -/
theorem toggleTask_frame_witness :
    (toggleTaskList 1 initialTasks).length = initialTasks.length ∧
    (0 < initialTasks.length ∧
      (initialTasks.getD 0 dfltTask).id = 1 ∧
      ((toggleTaskList 1 initialTasks).getD 0 dfltTask).done =
        !(initialTasks.getD 0 dfltTask).done) ∧
    (1 < initialTasks.length ∧
      (initialTasks.getD 1 dfltTask).id ≠ 1 ∧
      (toggleTaskList 1 initialTasks).getD 1 dfltTask =
        initialTasks.getD 1 dfltTask) :=
  ⟨(toggleTask_frame 1 initialTasks).1,
   ⟨by decide, by decide,
    (((toggleTask_frame 1 initialTasks).2 0 (by decide)).2.2.1 (by decide))⟩,
   ⟨by decide, by decide,
    (((toggleTask_frame 1 initialTasks).2 1 (by decide)).2.2.2 (by decide))⟩⟩

/-- A `tick` that reschedules itself did not touch the session counter. -/
theorem tick_reschedule_sessions (now : ℚ) (s : AppState) :
    (tick now s).2 = true →
    (tick now s).1.sessionsCompleted = s.sessionsCompleted := by
  simp only [tick]
  split <;> simp

/-- One `tick` increments the session counter by at most one. -/
theorem tick_sessions_le (now : ℚ) (s : AppState) :
    (tick now s).1.sessionsCompleted ≤ s.sessionsCompleted + 1 := by
  simp only [tick]
  split <;> simp

/-- Across a whole frame loop the session counter grows by at most one:
after the finalising `tick` declines to reschedule, no further frame can
run. -/
theorem runLoop_sessions_le (frames : List ℚ) (s : AppState) :
    (runLoop frames s).sessionsCompleted ≤ s.sessionsCompleted + 1 := by
  induction frames generalizing s with
  | nil => exact Nat.le_succ _
  | cons now rest ih =>
    simp only [runLoop]
    by_cases hr : (tick now s).2 = true
    · rw [if_pos hr]
      calc (runLoop rest (tick now s).1).sessionsCompleted
          ≤ (tick now s).1.sessionsCompleted + 1 := ih _
        _ = s.sessionsCompleted + 1 := by
            rw [tick_reschedule_sessions now s hr]
    · rw [if_neg hr]
      exact tick_sessions_le now s

/-- C1: when the elapsed seconds computed by `tick` reach the configured
total, the completion transition sets `running` to false, clamps `elapsed`
to exactly `totalSeconds`, sets the remaining-seconds display to 0, and
increments the session counter by exactly 1; the callback does not
reschedule itself, and over any whole frame loop the counter grows by at
most one, so a single completion is never counted twice. -/
theorem tick_completion (now : ℚ) (s : AppState)
    (h : s.totalSeconds ≤ elapsedAt s.startTimestamp now) :
    ((tick now s).1.running = false ∧
     (tick now s).1.elapsed = s.totalSeconds ∧
     (tick now s).1.secondsLeft = 0 ∧
     (tick now s).1.sessionsCompleted = s.sessionsCompleted + 1 ∧
     (tick now s).2 = false) ∧
    ∀ frames, (runLoop frames s).sessionsCompleted ≤ s.sessionsCompleted + 1 := by
  refine ⟨?_, fun frames => runLoop_sessions_le frames s⟩
  simp only [tick, if_pos h]
  simp

/-- Witness for C1: a 30-minute session (1800 total seconds) whose frame
timestamp arrives 1800 seconds after an anchor at 0 completes exactly
once. -/
theorem tick_completion_witness :
    (runningState.totalSeconds ≤ elapsedAt runningState.startTimestamp 1800000) ∧
    ((tick 1800000 runningState).1.running = false ∧
     (tick 1800000 runningState).1.elapsed = runningState.totalSeconds ∧
     (tick 1800000 runningState).1.secondsLeft = 0 ∧
     (tick 1800000 runningState).1.sessionsCompleted =
       runningState.sessionsCompleted + 1 ∧
     (tick 1800000 runningState).2 = false) :=
  have h : runningState.totalSeconds ≤ elapsedAt runningState.startTimestamp 1800000 :=
    le_max_of_le_right (by norm_num [runningState, initState])
  ⟨h, (tick_completion 1800000 runningState h).1⟩

/-- C3: pausing at accumulated elapsed time `E` freezes `E`; on resume the
`[running]` effect re-derives the start anchor as `now - E * 1000`, so at
every later frame time the elapsed seconds are exactly `E` plus the time
since the resume — nothing is lost or double-counted, regardless of how
long the timer stayed paused. -/
theorem pause_resume_preserves_elapsed (s : AppState) (now nowR : ℚ)
    (hrun : s.running = true) (hE : 0 ≤ s.elapsed) (hle : now ≤ nowR) :
    (startStop s).elapsed = s.elapsed ∧
    (startStop s).running = false ∧
    (startStop (startStop s)).running = true ∧
    elapsedAt (resumeEffect now (startStop (startStop s))).startTimestamp nowR
      = s.elapsed + (nowR - now) / 1000 := by
  refine ⟨by simp [startStop, hrun], by simp [startStop, hrun],
    by simp [startStop, hrun], ?_⟩
  have harm : (nowR - (now - s.elapsed * 1000)) / 1000
      = s.elapsed + (nowR - now) / 1000 := by
    field_simp
    ring
  have hpos : (0 : ℚ) ≤ s.elapsed + (nowR - now) / 1000 := by
    have : (0 : ℚ) ≤ (nowR - now) / 1000 :=
      div_nonneg (by linarith) (by norm_num)
    linarith
  simp only [startStop, hrun, if_true, Bool.false_eq_true, if_false,
    resumeEffect, resumeAnchor, elapsedAt]
  rw [harm]
  exact max_eq_right hpos

/-- Witness for C3: pause with 2 seconds elapsed, resume at time 1000 ms,
read at time 2500 ms — elapsed continues from exactly 2 seconds. -/
theorem pause_resume_witness :
    (runningAt2.running = true) ∧
    ((0 : ℚ) ≤ runningAt2.elapsed) ∧ ((1000 : ℚ) ≤ 2500) ∧
    elapsedAt (resumeEffect 1000
        (startStop (startStop runningAt2))).startTimestamp 2500
      = runningAt2.elapsed + (2500 - 1000) / 1000 :=
  ⟨rfl, by decide, by decide,
   (pause_resume_preserves_elapsed runningAt2 1000 2500 rfl (by decide)
     (by decide)).2.2.2⟩

/-- The seed of a left max-fold is a lower bound of the result. -/
theorem le_foldl_max (l : List ℚ) (a : ℚ) : a ≤ l.foldl max a := by
  induction l generalizing a with
  | nil => exact le_rfl
  | cons c l ih => exact le_trans (le_max_left a c) (ih (max a c))

/-- Every member of the list is a lower bound of a left max-fold over it. -/
theorem mem_le_foldl_max (l : List ℚ) (a b : ℚ) (hb : b ∈ l) :
    b ≤ l.foldl max a := by
  induction l generalizing a with
  | nil => cases hb
  | cons c l ih =>
    rcases List.mem_cons.mp hb with h | h
    · subst h
      exact le_trans (le_max_right a b) (le_foldl_max l (max a b))
    · exact ih (max a c) h

/-- A left max-fold returns its seed or a member of the list. -/
theorem foldl_max_mem (l : List ℚ) (a : ℚ) :
    l.foldl max a = a ∨ l.foldl max a ∈ l := by
  induction l generalizing a with
  | nil => exact Or.inl rfl
  | cons c l ih =>
    rcases ih (max a c) with h | h
    · rcases max_choice a c with hm | hm
      · exact Or.inl (by rw [List.foldl_cons, h, hm])
      · refine Or.inr (List.mem_cons.mpr (Or.inl ?_))
        rw [List.foldl_cons, h, hm]
    · exact Or.inr (List.mem_cons.mpr (Or.inr h))

/-- A left max-fold is bounded by any common upper bound of the seed and
the list. -/
theorem foldl_max_le (l : List ℚ) (a b : ℚ) (ha : a ≤ b)
    (h : ∀ x ∈ l, x ≤ b) : l.foldl max a ≤ b := by
  induction l generalizing a with
  | nil => exact ha
  | cons c l ih =>
    exact ih (max a c) (max_le ha (h c (List.mem_cons_self c l)))
      (fun x hx => h x (List.mem_cons.mpr (Or.inr hx)))

/-- The value `jsMax l` of a nonempty list is one of its members. -/
theorem jsMax_mem (a : ℚ) (l : List ℚ) : jsMax (a :: l) ∈ a :: l := by
  rcases foldl_max_mem l a with h | h
  · exact List.mem_cons.mpr (Or.inl (by simpa [jsMax] using h))
  · exact List.mem_cons.mpr (Or.inr (by simpa [jsMax] using h))

/-- The value `jsMax l` of a nonempty list bounds every member. -/
theorem le_jsMax (a b : ℚ) (l : List ℚ) (hb : b ∈ a :: l) :
    b ≤ jsMax (a :: l) := by
  rcases List.mem_cons.mp hb with h | h
  · subst h; exact le_foldl_max l b
  · exact mem_le_foldl_max l a b h

/-- The value `jsMax l` of a nonempty list is below any common upper bound. -/
theorem jsMax_le (a b : ℚ) (l : List ℚ) (h : ∀ x ∈ a :: l, x ≤ b) :
    jsMax (a :: l) ≤ b :=
  foldl_max_le l a b (h a (List.mem_cons_self a l))
    (fun x hx => h x (List.mem_cons.mpr (Or.inr hx)))

/-- Renormalisation: dividing a nonempty list of positive values by its
`jsMax` yields a list whose `jsMax` is exactly 1. -/
theorem jsMax_normalize (l : List ℚ) (hne : l ≠ [])
    (hpos : ∀ y ∈ l, 0 < y) :
    jsMax (l.map fun y => y / jsMax l) = 1 := by
  cases l with
  | nil => exact absurd rfl hne
  | cons a l =>
    have hM : 0 < jsMax (a :: l) :=
      lt_of_lt_of_le (hpos a (List.mem_cons_self a l))
        (le_jsMax a a l (List.mem_cons_self a l))
    have hmap : (a :: l).map (fun y => y / jsMax (a :: l))
        = a / jsMax (a :: l) :: l.map (fun y => y / jsMax (a :: l)) :=
      List.map_cons _ a l
    rw [hmap]
    apply le_antisymm
    · apply jsMax_le
      intro x hx
      rw [← hmap] at hx
      rcases List.mem_map.mp hx with ⟨y, hy, rfl⟩
      exact div_le_one_of_le₀ (le_jsMax a y l hy) hM.le
    · have h1 : jsMax (a :: l) / jsMax (a :: l)
          ∈ a / jsMax (a :: l) :: l.map (fun y => y / jsMax (a :: l)) := by
        rw [← hmap]
        exact List.mem_map.mpr ⟨jsMax (a :: l), jsMax_mem a l, rfl⟩
      have h2 := le_jsMax _ _ _ h1
      rwa [div_self hM.ne'] at h2

/-- The peak count is always at least 1. -/
theorem peaksFor_pos (m : ℚ) : 0 < peaksFor m := by
  simp only [peaksFor]
  split_ifs <;> norm_num

/-- A left fold that adds `f` of each element equals the seed plus the sum
of the mapped list. -/
theorem foldl_add_sum {α : Type} (f : α → ℚ) (l : List α) (a : ℚ) :
    l.foldl (fun y p => y + f p) a = a + (l.map f).sum := by
  induction l generalizing a with
  | nil => simp
  | cons c l ih => simp [ih, add_assoc]

/-- The summed gaussians are strictly positive whenever the exponential is
and at least one peak is present. -/
theorem gaussSum_pos (mexp : ℚ → ℚ) (peaks : ℕ) (tMax t : ℚ)
    (hexp : ∀ x, 0 < mexp x) (hp : 0 < peaks) :
    0 < gaussSum mexp peaks tMax t := by
  simp only [gaussSum]
  rw [foldl_add_sum, zero_add]
  apply List.sum_pos
  · intro x hx
    rcases List.mem_map.mp hx with ⟨p, _, rfl⟩
    simp only [gaussTerm]
    exact hexp _
  · intro hcon
    rw [List.map_eq_nil_iff, List.range_eq_nil] at hcon
    omega

/-- The progress fraction `i / samples` lies in `[0, 1]` for every sample
index (with division by zero giving 0 in the degenerate case). -/
theorem sample_frac_mem_unit (i samples : ℕ) (hi : i ≤ samples) :
    0 ≤ ((i : ℚ) / (samples : ℚ)) ∧ ((i : ℚ) / (samples : ℚ)) ≤ 1 := by
  constructor
  · positivity
  · rcases Nat.eq_zero_or_pos samples with h | h
    · subst h; simp
    · rw [div_le_one (by exact_mod_cast h)]
      exact_mod_cast hi

/-- Every sampled `y` value is strictly positive before renormalisation. -/
theorem samplePoint_snd_pos (mexp : ℚ → ℚ) (minutes : ℚ) (samples i : ℕ)
    (hexp : ∀ x, 0 < mexp x) (hm : 0 < minutes) (hi : i ≤ samples) :
    0 < (samplePoint mexp minutes samples i).2 := by
  have htMax : (0 : ℚ) < minutes * 60 := by positivity
  have hfrac := sample_frac_mem_unit i samples hi
  simp only [samplePoint]
  have hdiv : ((i : ℚ) / (samples : ℚ)) * (minutes * 60) / (minutes * 60)
      = (i : ℚ) / (samples : ℚ) := by
    rw [mul_div_assoc, div_self htMax.ne', mul_one]
  rw [hdiv]
  apply mul_pos
  · exact gaussSum_pos mexp (peaksFor minutes) (minutes * 60) _ hexp
      (peaksFor_pos minutes)
  · have : (3 : ℚ) / 20 * ((i : ℚ) / (samples : ℚ)) ≤ 3 / 20 * 1 :=
      mul_le_mul_of_nonneg_left hfrac.2 (by norm_num)
    linarith

/-- C5: for every duration `D > 0` and every (strictly positive)
exponential, `sampleProductivityCurve` is deterministic — two calls with
identical arguments produce identical point sequences — and after
renormalisation the maximum `y` value across the returned samples equals
exactly 1. -/
theorem sampleCurve_deterministic_normalized (mexp : ℚ → ℚ) (D : ℚ)
    (samples : ℕ) (hexp : ∀ x, 0 < mexp x) (hD : 0 < D) :
    sampleProductivityCurve mexp D samples
      = sampleProductivityCurve mexp D samples ∧
    jsMax ((sampleProductivityCurve mexp D samples).map Prod.snd) = 1 := by
  refine ⟨rfl, ?_⟩
  simp only [sampleProductivityCurve]
  set pts := (List.range (samples + 1)).map (samplePoint mexp D samples) with hpts
  set M := jsMax (pts.map Prod.snd) with hM
  have hbridge : (pts.map (fun p => (p.1, p.2 / M))).map Prod.snd
      = (pts.map Prod.snd).map (fun y => y / M) := by
    simp only [List.map_map]
    rfl
  rw [hbridge, hM]
  apply jsMax_normalize
  · rw [hpts]
    simp [List.map_eq_nil_iff, List.range_eq_nil]
  · intro y hy
    rw [hpts] at hy
    rcases List.mem_map.mp hy with ⟨p, hp, rfl⟩
    rcases List.mem_map.mp hp with ⟨i, hi, rfl⟩
    exact samplePoint_snd_pos mexp D samples i hexp hD
      (Nat.lt_succ_iff.mp (List.mem_range.mp hi))

/-- Witness for C5: the curve for the default 30-minute duration with a
concrete positive exponential stand-in. -/
theorem sampleCurve_witness :
    (∀ x, 0 < oneExp x) ∧ ((0 : ℚ) < 30) ∧
    (sampleProductivityCurve oneExp 30 200
       = sampleProductivityCurve oneExp 30 200 ∧
     jsMax ((sampleProductivityCurve oneExp 30 200).map Prod.snd) = 1) :=
  ⟨fun _ => one_pos, by decide,
   sampleCurve_deterministic_normalized oneExp 30 200 (fun _ => one_pos)
     (by decide)⟩

/-- Toggling never changes the identifiers of the task list. -/
theorem toggleTaskList_ids (id : ℕ) (ts : List Task) :
    (toggleTaskList id ts).map Task.id = ts.map Task.id := by
  simp only [toggleTaskList, List.map_map]
  apply List.map_congr_left
  intro t _
  by_cases h : t.id = id <;> simp [h]

/-- Adding with a timestamp that is not already an id keeps the ids
pairwise distinct. -/
theorem addTaskList_ids_nodup (now : ℕ) (txt : String) (ts : List Task)
    (h0 : (ts.map Task.id).Nodup) (hfresh : now ∉ ts.map Task.id) :
    ((addTaskList now txt ts).map Task.id).Nodup := by
  simp only [addTaskList]
  split
  · exact h0
  · rw [List.map_append]
    simp [List.nodup_append, h0]
    intro x hx hxnow
    exact hfresh (List.mem_map.mpr ⟨x, hx, hxnow⟩)

/-- C9 (amended): after any sequence of add and toggle operations starting
from a list with pairwise-distinct ids, in which every add observes a
`Date.now()` value that is not already an id in the list at that moment,
every add assigns an id unique within the list and all ids stay pairwise
distinct. (Unconditional uniqueness fails: see the counterexample where two
adds observe the same `Date.now()` value.) -/
theorem taskOps_ids_nodup (ops : List TaskOp) (init : List Task)
    (h0 : (init.map Task.id).Nodup) (hf : freshOps ops init = true) :
    ((applyOps ops init).map Task.id).Nodup := by
  induction ops generalizing init with
  | nil => exact h0
  | cons op rest ih =>
    simp only [freshOps, Bool.and_eq_true] at hf
    have hstep : ((applyOp op init).map Task.id).Nodup := by
      cases op with
      | add now txt =>
        have hfresh : now ∉ init.map Task.id := by
          have h1 := hf.1
          simp only [opFresh, Bool.not_eq_true'] at h1
          simpa using h1
        exact addTaskList_ids_nodup now txt init h0 hfresh
      | toggle id =>
        simpa only [applyOp, toggleTaskList_ids] using h0
    exact ih (applyOp op init) hstep hf.2

/-- Counterexample for C9 as literally stated: two adds that observe the
same `Date.now()` value (two clicks within the same millisecond) produce
two tasks with the same id, so the identifiers are not pairwise
distinct. -/
theorem taskOps_ids_nodup_cex :
    ¬ (((applyOps [TaskOp.add 5 textA, TaskOp.add 5 textB]
          initialTasks).map Task.id).Nodup) := by decide

/-- Witness for the amended C9: a fresh sequence of two adds and a toggle
keeps all ids pairwise distinct. -/
theorem taskOps_ids_nodup_witness :
    (initialTasks.map Task.id).Nodup ∧
    freshOps [TaskOp.add 5 textA, TaskOp.add 7 textB, TaskOp.toggle 5]
      initialTasks = true ∧
    ((applyOps [TaskOp.add 5 textA, TaskOp.add 7 textB, TaskOp.toggle 5]
        initialTasks).map Task.id).Nodup :=
  ⟨by decide, by decide, taskOps_ids_nodup _ initialTasks (by decide) (by decide)⟩

end Pomodoro
